import Mathlib

/-!
Verification of the roster-and-broadcast engine of the group mention bot
(source: src/bot.py).  The Python source is shallowly embedded: pure
helpers become Lean functions, the sqlite tables become an explicit state
record threaded through the operations, the cancellable send loop becomes
a recursive function over the chunk list parameterised by the moment (a
chunk-boundary index) at which an external stop request lands, and the
fallible transport collaborators become a record of per-chunk success
flags, with an uncaught exception modelled as an aborted-run flag.
-/

/-- A row of the `members` table.  `upsert_member` stores
`user.first_name or ""` etc., so the display fields are plain strings and
Python truthiness on them is emptiness testing. -/
structure MemberRow where
  user_id : Int
  first_name : String
  last_name : String
  username : String
deriving DecidableEq

/-- Python `str.isspace` on the ASCII whitespace characters stripped by
`str.strip()`. -/
def pyIsSpace (c : Char) : Bool :=
  c = ' ' || c = '\t' || c = '\n' || c = '\r' || c = '\x0b' || c = '\x0c'

/-- Python `s.strip()`: drop whitespace from both ends. -/
def pyStrip (s : String) : String :=
  ⟨((s.data.dropWhile pyIsSpace).reverse.dropWhile pyIsSpace).reverse⟩

/-- bot.py line 156: `f"@{row[\"username\"]}" if row["username"] else ""`. -/
def visible_handle (r : MemberRow) : String :=
  if r.username != "" then "@" ++ r.username else ""

/-- bot.py line 157:
`" ".join([x for x in [row["first_name"], row["last_name"]] if x]).strip() or "member"`. -/
def full_name (r : MemberRow) : String :=
  let joined := " ".intercalate (([r.first_name, r.last_name]).filter (fun x => x != ""))
  let stripped := pyStrip joined
  if stripped = "" then "member" else stripped

/-- bot.py line 158: the invisible ping,
`f"<a href=\"tg://user?id={uid}\">⁣</a>"`. -/
def invisible_link (uid : Int) : String :=
  "<a href=\"tg://user?id=" ++ toString uid ++ "\">" ++ "⁣" ++ "</a>"

/-- bot.py lines 154-163, `build_mention_text(row, style, emoji)`. -/
def build_mention_text (r : MemberRow) (style : String) (emoji : String) : String :=
  if style = "emoji" then
    emoji ++ " " ++ (if visible_handle r != "" then visible_handle r else full_name r)
      ++ invisible_link r.user_id
  else if style = "name" then
    full_name r ++ invisible_link r.user_id
  else if visible_handle r != "" then visible_handle r ++ invisible_link r.user_id
  else invisible_link r.user_id

/-- The loop body of `chunkify` (bot.py lines 165-173): the accumulator
`buf` holds the current partial chunk in reverse; a chunk is yielded as
soon as its length reaches `n`, and a nonempty trailing buffer is yielded
at the end. -/
def chunkifyGo (n : Nat) : List α → List α → List (List α)
  | [], buf => if buf.isEmpty then [] else [buf.reverse]
  | x :: xs, buf =>
      if n ≤ buf.length + 1 then (x :: buf).reverse :: chunkifyGo n xs []
      else chunkifyGo n xs (x :: buf)

/-- bot.py lines 165-173, `chunkify(seq, n)` as the list of yielded chunks. -/
def chunkify (seq : List α) (n : Nat) : List (List α) :=
  chunkifyGo n seq []

/-- A row of the `chat_config` table, with the types `get_config` reads
back (booleans from the integer columns, ints for sizes/delays). -/
structure Config where
  only_admins : Bool
  copy_message : Bool
  tag_style : String
  emoji : String
  chunk_size : Int
  delay_ms : Int
deriving DecidableEq

/-- bot.py lines 32-39, the `DEFAULTS` dict. -/
def DEFAULTS : Config :=
  ⟨true, false, "empty", "📣", 8, 900⟩

/-- The `**kwargs` of `set_config`: an optional new value per column;
`none` means the field is not named in the update. -/
structure ConfigPatch where
  only_admins : Option Bool
  copy_message : Option Bool
  tag_style : Option String
  emoji : Option String
  chunk_size : Option Int
  delay_ms : Option Int
deriving DecidableEq

/-- Python `cfg.update(kwargs)` on the config dict. -/
def applyPatch (c : Config) (p : ConfigPatch) : Config :=
  ⟨p.only_admins.getD c.only_admins,
   p.copy_message.getD c.copy_message,
   p.tag_style.getD c.tag_style,
   p.emoji.getD c.emoji,
   p.chunk_size.getD c.chunk_size,
   p.delay_ms.getD c.delay_ms⟩

/-- The durable sqlite state: the `chat_config` table keyed by chat id and
the `members` table grouped by chat id (the per-chat SELECT result order
is whatever the stored list holds). -/
structure DB where
  chat_config : Int → Option Config
  members : Int → List MemberRow

/-- bot.py lines 74-102, `get_config(chat_id)`: return the stored row, or
insert the defaults and return them. -/
def get_config (db : DB) (chat_id : Int) : Config × DB :=
  match db.chat_config chat_id with
  | some row => (row, db)
  | none =>
      (DEFAULTS,
       ⟨fun c => if c = chat_id then some DEFAULTS else db.chat_config c, db.members⟩)

/-- bot.py lines 104-123, `set_config(chat_id, **kwargs)`: read (or
materialize) the current config, apply the updates, REPLACE the full row. -/
def set_config (db : DB) (chat_id : Int) (p : ConfigPatch) : Config × DB :=
  let g := get_config db chat_id
  let cfg := applyPatch g.1 p
  (cfg, ⟨fun c => if c = chat_id then some cfg else g.2.chat_config c, g.2.members⟩)

/-- bot.py lines 147-152, `is_admin`: the external
`get_chat_administrators` call either fails (any exception) or returns the
admin user ids; on failure the function returns `False`. -/
def is_admin (lookup : Except Unit (List Int)) (user_id : Int) : Bool :=
  match lookup with
  | Except.error _ => false
  | Except.ok admins => admins.contains user_id

/-- Observable events of a `/all` run, in emission order. -/
inductive RunEvent where
  | header (nMembers : Nat)
  | denied
  | emptyRoster
  | anchorCopied (i : Nat)
  | sentReply (i : Nat) (text : String)
  | sentPlain (i : Nat) (text : String)
  | slept (ms : Int)
  | stopped
  | done
  | stopAck
deriving DecidableEq

/-- Per-chunk outcomes of the three transport calls the loop body can
make: `replied.copy_to`, the reply-anchored `send_message`, and the plain
`send_message`. -/
structure SendEnv where
  copyOk : Nat → Bool
  replyOk : Nat → Bool
  plainOk : Nat → Bool

/-- A transport in which every call succeeds. -/
def allOk : SendEnv :=
  ⟨fun _ => true, fun _ => true, fun _ => true⟩

/-- bot.py line 305, `flag.clear()`: whatever the flag held before the
run, it is false afterwards. -/
def clearFlag (_prior : Bool) : Bool :=
  false

/-- The value `flag.is_set()` returns at boundary moment `i`: the cleared
base value, or true once the external stop request (landing just before
moment `stopAt`) has been issued; the flag is never cleared during a run,
so the observation is monotone in `i`. -/
def checkSet (flag0 : Bool) (stopAt : Option Nat) (i : Nat) : Bool :=
  flag0 || (match stopAt with
            | none => false
            | some j => decide (j ≤ i))

/-- bot.py lines 320-331, the send of one chunk body.  With a reply
anchor: try `copy_to` then the anchored send, and on any exception fall
back to one plain send; without an anchor: one plain send.  The fallback
and plain sends are outside any `try`, so their failure is an uncaught
exception: the boolean result marks the run as aborted. -/
def sendOneChunk (env : SendEnv) (replied : Bool) (i : Nat) (text : String) :
    List RunEvent × Bool :=
  if replied then
    if env.copyOk i then
      if env.replyOk i then ([RunEvent.anchorCopied i, RunEvent.sentReply i text], false)
      else if env.plainOk i then ([RunEvent.anchorCopied i, RunEvent.sentPlain i text], false)
      else ([RunEvent.anchorCopied i], true)
    else if env.plainOk i then ([RunEvent.sentPlain i text], false)
    else ([], true)
  else if env.plainOk i then ([RunEvent.sentPlain i text], false)
  else ([], true)

/-- bot.py lines 315-336: the `for chunk in chunks` loop starting at
boundary index `i`, followed by the final `if not flag.is_set()` check.
Each iteration checks the flag (break with the Stopped notice if set),
sends the chunk, then sleeps `delay_ms`; an uncaught send exception
propagates, ending the run with no terminal notice. -/
def loopRun (flag0 : Bool) (env : SendEnv) (stopAt : Option Nat) (replied : Bool)
    (d : Int) : Nat → List String → List RunEvent × Bool
  | i, [] => (if checkSet flag0 stopAt i then [] else [RunEvent.done], false)
  | i, c :: rest =>
      if checkSet flag0 stopAt i then ([RunEvent.stopped], false)
      else
        let s := sendOneChunk env replied i c
        if s.2 then (s.1, true)
        else
          let r := loopRun flag0 env stopAt replied d (i + 1) rest
          (s.1 ++ RunEvent.slept d :: r.1, r.2)

/-- bot.py lines 304-336: the run phase of `tag_all` after the roster is
known nonempty — clear the flag, emit the header, run the chunk loop. -/
def runPhase (prior : Bool) (env : SendEnv) (stopAt : Option Nat) (replied : Bool)
    (d : Int) (nMembers : Nat) (chunks : List String) : List RunEvent × Bool :=
  let r := loopRun (clearFlag prior) env stopAt replied d 0 chunks
  (RunEvent.header nMembers :: r.1, r.2)

/-- bot.py lines 275-278, the `/stopall` handler: set the chat's flag and
acknowledge, unconditionally. -/
def stopall (_flag : Bool) : Bool × List RunEvent :=
  (true, [RunEvent.stopAck])

/-- bot.py lines 281-336, the `/all` handler `tag_all`: permission gate,
empty-roster gate, then mention rendering, chunking (`chunk_size` clamped
to at least 1), and the run phase.  Returns the database after the call,
the emitted events, and whether an exception escaped the handler. -/
def tag_all (db : DB) (chat : Int) (user : Int) (lookup : Except Unit (List Int))
    (prior : Bool) (stopAt : Option Nat) (replyCtx : Bool) (env : SendEnv) :
    DB × (List RunEvent × Bool) :=
  let g := get_config db chat
  let cfg := g.1
  let db1 := g.2
  if cfg.only_admins && !(is_admin lookup user) then (db1, ([RunEvent.denied], false))
  else
    let rows := db1.members chat
    if rows.isEmpty then (db1, ([RunEvent.emptyRoster], false))
    else
      let mentions := rows.map (fun r => build_mention_text r cfg.tag_style cfg.emoji)
      let chunks := (chunkify mentions (max 1 cfg.chunk_size).toNat).map
        (fun c => " ".intercalate c)
      let replied := cfg.copy_message && replyCtx
      (db1, runPhase prior env stopAt replied cfg.delay_ms rows.length chunks)

/-- Spec-side reading of the claimed display-name computation: first and
last name each kept only when non-empty, joined by a single space, with
the fallback "member" only when both are empty (no whitespace trimming). -/
def claimDisplayName (r : MemberRow) : String :=
  let parts := [r.first_name, r.last_name].filter (fun x => x != "")
  if parts.isEmpty then "member" else " ".intercalate parts

/-- The chunk bodies sent during a run, in order: texts of the reply-
anchored and plain send events. -/
def sentTexts : List RunEvent → List String
  | [] => []
  | RunEvent.sentReply _ t :: r => t :: sentTexts r
  | RunEvent.sentPlain _ t :: r => t :: sentTexts r
  | _ :: r => sentTexts r

/-- Number of pacing delays performed during a run. -/
def countSleeps : List RunEvent → Nat
  | [] => 0
  | RunEvent.slept _ :: r => countSleeps r + 1
  | _ :: r => countSleeps r

/-- The events one non-cancelled loop iteration produces when it does not
abort: the send events then the pacing delay. -/
def chunkBlock (env : SendEnv) (replied : Bool) (d : Int) (i : Nat) (c : String) :
    List RunEvent :=
  (sendOneChunk env replied i c).1 ++ [RunEvent.slept d]

/-- The event trace of an uncancelled, unaborted loop: one block per
chunk, then the Done notice. -/
def blocksFrom (env : SendEnv) (replied : Bool) (d : Int) :
    Nat → List String → List RunEvent
  | _, [] => [RunEvent.done]
  | i, c :: rest => chunkBlock env replied d i c ++ blocksFrom env replied d (i + 1) rest

/-- Witness fixture: a database holding the default config for chat 1 and
no members. -/
def db1cfg : DB :=
  ⟨fun c => if c = 1 then some DEFAULTS else none, fun _ => []⟩

/-- Witness fixture: an empty database. -/
def dbEmpty : DB :=
  ⟨fun _ => none, fun _ => []⟩

/-- Witness fixture: a transport whose plain sends always fail. -/
def envPlainFail : SendEnv :=
  ⟨fun _ => true, fun _ => true, fun _ => false⟩

/-- Witness fixture: a transport whose duplications always fail but whose
plain sends succeed. -/
def envCopyFail : SendEnv :=
  ⟨fun _ => false, fun _ => true, fun _ => true⟩

/-- Witness fixture: a transport where duplication and plain sends both
fail. -/
def envCopyPlainFail : SendEnv :=
  ⟨fun _ => false, fun _ => true, fun _ => false⟩

/-- Witness fixture: a member with a whitespace-only first name and no
other display fields. -/
def rowWhitespace : MemberRow :=
  ⟨7, " ", "", ""⟩

/-- Witness fixture: three members known only by username. -/
def rows3 : List MemberRow :=
  [⟨1, "", "", "alice"⟩, ⟨2, "", "", "bob"⟩, ⟨3, "", "", "carol"⟩]

/-! ### Helper lemmas -/

theorem at_append_ne (s : String) : ("@" ++ s) ≠ "" := by
  obtain ⟨d⟩ := s
  intro h
  have h2 : ('@' :: d) = ([] : List Char) := congrArg String.data h
  exact List.cons_ne_nil _ _ h2

theorem mem_dropLast_cons {α : Type _} {a c : α} {l : List α}
    (h : c ∈ (a :: l).dropLast) : c = a ∨ c ∈ l.dropLast := by
  cases l with
  | nil => simp at h
  | cons y ys =>
      rw [List.dropLast_cons₂] at h
      exact List.mem_cons.mp h

theorem chunkifyGo_flatten {α : Type _} (n : Nat) :
    ∀ (xs buf : List α), (chunkifyGo n xs buf).flatten = buf.reverse ++ xs := by
  intro xs
  induction xs with
  | nil =>
      intro buf
      by_cases h : buf.isEmpty
      · have : buf = [] := List.isEmpty_iff.mp h
        subst this
        simp [chunkifyGo]
      · simp [chunkifyGo, h]
  | cons x xs ih =>
      intro buf
      by_cases h : n ≤ buf.length + 1
      · simp [chunkifyGo, h, ih]
      · simp [chunkifyGo, h, ih]

theorem chunkifyGo_length {α : Type _} (n : Nat) (hn : 1 ≤ n) :
    ∀ (xs buf : List α), buf.length < n →
      (chunkifyGo n xs buf).length = (buf.length + xs.length + n - 1) / n := by
  intro xs
  induction xs with
  | nil =>
      intro buf hb
      by_cases h : buf.isEmpty
      · have : buf = [] := List.isEmpty_iff.mp h
        subst this
        simp [chunkifyGo]
        exact (Nat.div_eq_of_lt (by omega)).symm
      · have hb1 : 1 ≤ buf.length := by
          cases buf with
          | nil => simp at h
          | cons y ys => simp
        simp [chunkifyGo, h]
        have he : buf.length + n - 1 = (buf.length - 1) + n := by omega
        rw [he, Nat.add_div_right _ (by omega), Nat.div_eq_of_lt (by omega)]
  | cons x xs ih =>
      intro buf hb
      by_cases h : n ≤ buf.length + 1
      · have hbn : buf.length + 1 = n := by omega
        have h0 : (chunkifyGo n (x :: xs) buf).length = (chunkifyGo n xs []).length + 1 := by
          simp [chunkifyGo, h]
        rw [h0, ih [] (by simp; omega)]
        have he : buf.length + (x :: xs).length + n - 1 = (([] : List α).length + xs.length + n - 1) + n := by
          simp
          omega
        rw [he, Nat.add_div_right _ (by omega)]
      · have h0 : chunkifyGo n (x :: xs) buf = chunkifyGo n xs (x :: buf) := by
          simp [chunkifyGo, h]
        rw [h0, ih (x :: buf) (by simp; omega)]
        have he : (x :: buf).length + xs.length + n - 1 = buf.length + (x :: xs).length + n - 1 := by
          simp
          omega
        rw [he]

theorem chunkifyGo_sizes {α : Type _} (n : Nat) (hn : 1 ≤ n) :
    ∀ (xs buf : List α), buf.length < n →
      (∀ c ∈ (chunkifyGo n xs buf).dropLast, c.length = n) ∧
      (∀ c ∈ chunkifyGo n xs buf, 1 ≤ c.length ∧ c.length ≤ n) := by
  intro xs
  induction xs with
  | nil =>
      intro buf hb
      by_cases h : buf.isEmpty
      · simp [chunkifyGo, h]
      · have hb1 : 1 ≤ buf.length := by
          cases buf with
          | nil => simp at h
          | cons y ys => simp
        constructor
        · simp [chunkifyGo, h]
        · intro c hc
          simp [chunkifyGo, h] at hc
          subst hc
          simp
          omega
  | cons x xs ih =>
      intro buf hb
      by_cases h : n ≤ buf.length + 1
      · have hbn : buf.length + 1 = n := by omega
        have h0 : chunkifyGo n (x :: xs) buf = (x :: buf).reverse :: chunkifyGo n xs [] := by
          simp [chunkifyGo, h]
        have ih0 := ih [] (by simp; omega)
        rw [h0]
        constructor
        · intro c hc
          rcases mem_dropLast_cons hc with rfl | hc2
          · simp
            omega
          · exact ih0.1 c hc2
        · intro c hc
          rcases List.mem_cons.mp hc with rfl | hc2
          · simp
            omega
          · exact ih0.2 c hc2
      · have h0 : chunkifyGo n (x :: xs) buf = chunkifyGo n xs (x :: buf) := by
          simp [chunkifyGo, h]
        rw [h0]
        exact ih (x :: buf) (by simp; omega)

/-- C1: for a roster snapshot of size k and any stored chunk size n (zero
and negative included), chunking the rendered mention sequence with
m = max(1, n) yields exactly ceil(k/m) chunks; every chunk except possibly
the last has exactly m elements, every chunk (the last included) has
between 1 and m elements, and the chunks concatenate back to the original
mention sequence in order. -/
theorem chunkify_partition (rows : List MemberRow) (style em : String) (ncs : Int) :
    (chunkify (rows.map fun r => build_mention_text r style em) (max 1 ncs).toNat).length
        = (rows.length + (max 1 ncs).toNat - 1) / (max 1 ncs).toNat
    ∧ (∀ c ∈ (chunkify (rows.map fun r => build_mention_text r style em)
          (max 1 ncs).toNat).dropLast, c.length = (max 1 ncs).toNat)
    ∧ (∀ c ∈ chunkify (rows.map fun r => build_mention_text r style em) (max 1 ncs).toNat,
          1 ≤ c.length ∧ c.length ≤ (max 1 ncs).toNat)
    ∧ (chunkify (rows.map fun r => build_mention_text r style em) (max 1 ncs).toNat).flatten
        = rows.map fun r => build_mention_text r style em := by
  have hmax : (1 : Int) ≤ max 1 ncs := le_max_left 1 ncs
  have hm : 1 ≤ (max 1 ncs).toNat := by omega
  refine ⟨?_, ?_, ?_, ?_⟩
  · rw [chunkify, chunkifyGo_length _ hm _ _ (by simp only [List.length_nil]; omega)]
    simp
  · exact (chunkifyGo_sizes _ hm _ _ (by simp only [List.length_nil]; omega)).1
  · exact (chunkifyGo_sizes _ hm _ _ (by simp only [List.length_nil]; omega)).2
  · rw [chunkify, chunkifyGo_flatten]
    simp

/-- Witness for C1 at a concrete three-member roster with chunk size 2:
the first chunk is a non-final chunk and has exactly two elements. -/
theorem chunkify_partition_witness :
    ((chunkify (rows3.map fun r => build_mention_text r "empty" "x")
        (max 1 (2 : Int)).toNat).headD [])
      ∈ (chunkify (rows3.map fun r => build_mention_text r "empty" "x")
        (max 1 (2 : Int)).toNat).dropLast
    ∧ ((chunkify (rows3.map fun r => build_mention_text r "empty" "x")
        (max 1 (2 : Int)).toNat).headD []).length = (max 1 (2 : Int)).toNat :=
  ⟨by decide, (chunkify_partition rows3 "empty" "x" 2).2.1 _ (by decide)⟩

/-- Counterexample to C2 as stated: for a member whose first name is a
single space (non-empty, so the claimed display-name computation keeps it
and renders the prefix " "), the code strips the joined name to emptiness
and falls back to "member"; the claimed output and the code output differ
under style name. -/
theorem build_mention_text_strip_cex :
    build_mention_text rowWhitespace "name" "📣"
        ≠ claimDisplayName rowWhitespace ++ invisible_link rowWhitespace.user_id
    ∧ build_mention_text rowWhitespace "name" "📣" = "member" ++ invisible_link 7 := by
  constructor
  · decide
  · decide

/-- C2 (amended): the output always ends with the zero-width link to the
member's numeric id; under style empty the prefix is "@username" when the
username is non-empty and nothing otherwise; under style emoji it is the
emoji, a space, then "@username" when the username is non-empty and
otherwise the display name; under style name it is always the display
name — where the display name keeps first and last name only when
non-empty, joins them with a single space, strips surrounding whitespace,
and falls back to the literal "member" when the stripped result is empty
(not merely when both fields are empty). -/
theorem build_mention_text_styles (r : MemberRow) (em : String) :
    build_mention_text r "empty" em
        = (if r.username != "" then "@" ++ r.username ++ invisible_link r.user_id
           else invisible_link r.user_id)
    ∧ build_mention_text r "emoji" em
        = em ++ " " ++ (if r.username != "" then "@" ++ r.username else full_name r)
            ++ invisible_link r.user_id
    ∧ build_mention_text r "name" em = full_name r ++ invisible_link r.user_id
    ∧ (∀ style, ∃ p, build_mention_text r style em = p ++ invisible_link r.user_id) := by
  have hne : ∀ s : String, (("@" ++ s) != "") = true := by
    intro s
    simpa using at_append_ne s
  refine ⟨?_, ?_, ?_, ?_⟩
  · by_cases h : r.username = ""
    · simp [build_mention_text, visible_handle, h]
    · simp [build_mention_text, visible_handle, h, hne, String.append_assoc]
  · by_cases h : r.username = ""
    · simp [build_mention_text, visible_handle, h]
    · simp [build_mention_text, visible_handle, h, hne]
  · simp [build_mention_text]
  · intro style
    by_cases he : style = "emoji"
    · subst he
      by_cases h : r.username = ""
      · exact ⟨em ++ " " ++ full_name r, by
          simp [build_mention_text, visible_handle, h, String.append_assoc]⟩
      · exact ⟨em ++ " " ++ ("@" ++ r.username), by
          simp [build_mention_text, visible_handle, h, hne, String.append_assoc]⟩
    · by_cases hn : style = "name"
      · subst hn
        exact ⟨full_name r, by simp [build_mention_text]⟩
      · by_cases h : r.username = ""
        · exact ⟨"", by simp [build_mention_text, visible_handle, h, he, hn]⟩
        · exact ⟨"@" ++ r.username, by
            simp [build_mention_text, visible_handle, h, he, hn, hne, String.append_assoc]⟩

/-- C10: any style value other than "emoji" and "name" (the empty string,
an arbitrary word, even values outside the documented enum) falls through
to the empty-style branch: the output is identical to style "empty". -/
theorem build_mention_text_unknown_style (r : MemberRow) (em style : String)
    (h1 : style ≠ "emoji") (h2 : style ≠ "name") :
    build_mention_text r style em = build_mention_text r "empty" em := by
  simp [build_mention_text, h1, h2]

/-- Witness for C10 at the style value "banana". -/
theorem build_mention_text_unknown_style_witness :
    (("banana" : String) ≠ "emoji")
    ∧ build_mention_text rowWhitespace "banana" "x"
        = build_mention_text rowWhitespace "empty" "x" :=
  ⟨by decide, build_mention_text_unknown_style rowWhitespace "x" "banana"
    (by decide) (by decide)⟩

/-- C7: for a chat with no stored config row, get_config returns exactly
the documented defaults (only_admins true, copy_message false, tag_style
"empty", the fixed glyph, chunk_size 8, delay_ms 900), inserts a row with
those values, and a subsequent get_config returns the same values and
leaves the store unchanged. -/
theorem get_config_defaults (db : DB) (chat : Int) (h : db.chat_config chat = none) :
    (get_config db chat).1 = ⟨true, false, "empty", "📣", 8, 900⟩
    ∧ (get_config db chat).2.chat_config chat = some DEFAULTS
    ∧ (get_config (get_config db chat).2 chat).1 = (get_config db chat).1
    ∧ (get_config (get_config db chat).2 chat).2 = (get_config db chat).2 := by
  simp [get_config, h, DEFAULTS]

/-- Witness for C7 on the empty database at chat 4. -/
theorem get_config_defaults_witness :
    dbEmpty.chat_config 4 = none
    ∧ (get_config dbEmpty 4).1 = ⟨true, false, "empty", "📣", 8, 900⟩ :=
  ⟨rfl, (get_config_defaults dbEmpty 4 rfl).1⟩

/-- C8: after a partial update, reading the config back gives the new
value for every field named in the update and exactly the previous value
(stored or defaulted) for every field not named. -/
theorem set_config_partial (db : DB) (chat : Int) (p : ConfigPatch) :
    (get_config (set_config db chat p).2 chat).1.only_admins
        = p.only_admins.getD (get_config db chat).1.only_admins
    ∧ (get_config (set_config db chat p).2 chat).1.copy_message
        = p.copy_message.getD (get_config db chat).1.copy_message
    ∧ (get_config (set_config db chat p).2 chat).1.tag_style
        = p.tag_style.getD (get_config db chat).1.tag_style
    ∧ (get_config (set_config db chat p).2 chat).1.emoji
        = p.emoji.getD (get_config db chat).1.emoji
    ∧ (get_config (set_config db chat p).2 chat).1.chunk_size
        = p.chunk_size.getD (get_config db chat).1.chunk_size
    ∧ (get_config (set_config db chat p).2 chat).1.delay_ms
        = p.delay_ms.getD (get_config db chat).1.delay_ms := by
  cases h : db.chat_config chat <;>
    simp [get_config, set_config, applyPatch, h]

@[simp] theorem sentTexts_nil : sentTexts [] = [] := rfl

@[simp] theorem sentTexts_header (n : Nat) (l : List RunEvent) :
    sentTexts (RunEvent.header n :: l) = sentTexts l := rfl

@[simp] theorem sentTexts_anchor (i : Nat) (l : List RunEvent) :
    sentTexts (RunEvent.anchorCopied i :: l) = sentTexts l := rfl

@[simp] theorem sentTexts_sentReply (i : Nat) (t : String) (l : List RunEvent) :
    sentTexts (RunEvent.sentReply i t :: l) = t :: sentTexts l := rfl

@[simp] theorem sentTexts_sentPlain (i : Nat) (t : String) (l : List RunEvent) :
    sentTexts (RunEvent.sentPlain i t :: l) = t :: sentTexts l := rfl

@[simp] theorem sentTexts_slept (m : Int) (l : List RunEvent) :
    sentTexts (RunEvent.slept m :: l) = sentTexts l := rfl

@[simp] theorem sentTexts_stopped (l : List RunEvent) :
    sentTexts (RunEvent.stopped :: l) = sentTexts l := rfl

@[simp] theorem sentTexts_done (l : List RunEvent) :
    sentTexts (RunEvent.done :: l) = sentTexts l := rfl

@[simp] theorem sentTexts_append (a b : List RunEvent) :
    sentTexts (a ++ b) = sentTexts a ++ sentTexts b := by
  induction a with
  | nil => rfl
  | cons x r ih => cases x <;> simp [sentTexts, ih]

@[simp] theorem countSleeps_nil : countSleeps [] = 0 := rfl

@[simp] theorem countSleeps_slept (m : Int) (l : List RunEvent) :
    countSleeps (RunEvent.slept m :: l) = countSleeps l + 1 := rfl

@[simp] theorem countSleeps_header (n : Nat) (l : List RunEvent) :
    countSleeps (RunEvent.header n :: l) = countSleeps l := rfl

@[simp] theorem countSleeps_anchor (i : Nat) (l : List RunEvent) :
    countSleeps (RunEvent.anchorCopied i :: l) = countSleeps l := rfl

@[simp] theorem countSleeps_sentReply (i : Nat) (t : String) (l : List RunEvent) :
    countSleeps (RunEvent.sentReply i t :: l) = countSleeps l := rfl

@[simp] theorem countSleeps_sentPlain (i : Nat) (t : String) (l : List RunEvent) :
    countSleeps (RunEvent.sentPlain i t :: l) = countSleeps l := rfl

@[simp] theorem countSleeps_done (l : List RunEvent) :
    countSleeps (RunEvent.done :: l) = countSleeps l := rfl

@[simp] theorem countSleeps_append (a b : List RunEvent) :
    countSleeps (a ++ b) = countSleeps a + countSleeps b := by
  induction a with
  | nil => simp
  | cons x r ih => cases x <;> simp [countSleeps, ih] <;> omega

theorem sendOneChunk_plainOk (env : SendEnv) (replied : Bool) (i : Nat) (c : String)
    (hp : env.plainOk i = true) :
    (sendOneChunk env replied i c).2 = false
    ∧ sentTexts (sendOneChunk env replied i c).1 = [c]
    ∧ countSleeps (sendOneChunk env replied i c).1 = 0
    ∧ RunEvent.done ∉ (sendOneChunk env replied i c).1
    ∧ RunEvent.stopped ∉ (sendOneChunk env replied i c).1 := by
  cases replied <;> cases hc : env.copyOk i <;> cases hr : env.replyOk i <;>
    simp [sendOneChunk, hp, hc, hr, sentTexts, countSleeps]

theorem loopRun_none_eq (env : SendEnv) (replied : Bool) (d : Int)
    (hp : ∀ i, env.plainOk i = true) :
    ∀ (chunks : List String) (b : Nat),
      loopRun false env none replied d b chunks = (blocksFrom env replied d b chunks, false) := by
  intro chunks
  induction chunks with
  | nil =>
      intro b
      simp [loopRun, checkSet, blocksFrom]
  | cons c rest ih =>
      intro b
      have hs := sendOneChunk_plainOk env replied b c (hp b)
      simp [loopRun, checkSet, blocksFrom, chunkBlock, hs.1, ih]

theorem blocksFrom_facts (env : SendEnv) (replied : Bool) (d : Int)
    (hp : ∀ i, env.plainOk i = true) :
    ∀ (chunks : List String) (b : Nat),
      sentTexts (blocksFrom env replied d b chunks) = chunks
      ∧ countSleeps (blocksFrom env replied d b chunks) = chunks.length
      ∧ RunEvent.done ∈ blocksFrom env replied d b chunks := by
  intro chunks
  induction chunks with
  | nil =>
      intro b
      simp [blocksFrom, sentTexts, countSleeps]
  | cons c rest ih =>
      intro b
      have hs := sendOneChunk_plainOk env replied b c (hp b)
      have ih2 := ih (b + 1)
      simp [blocksFrom, chunkBlock, hs.2.1, hs.2.2.1, ih2.1, ih2.2.1, ih2.2.2]

theorem loopRun_stop (replied : Bool) (d : Int) :
    ∀ (chunks : List String) (k b : Nat), k < chunks.length →
      sentTexts (loopRun false allOk (some (b + k)) replied d b chunks).1 = chunks.take k
      ∧ RunEvent.stopped ∈ (loopRun false allOk (some (b + k)) replied d b chunks).1
      ∧ RunEvent.done ∉ (loopRun false allOk (some (b + k)) replied d b chunks).1
      ∧ (loopRun false allOk (some (b + k)) replied d b chunks).2 = false := by
  intro chunks
  induction chunks with
  | nil =>
      intro k b hk
      simp at hk
  | cons c rest ih =>
      intro k b hk
      cases k with
      | zero =>
          have hcs : checkSet false (some b) b = true := by
            simp [checkSet]
          simp [loopRun, hcs, sentTexts]
      | succ k =>
          have hcs : checkSet false (some (b + (k + 1))) b = false := by
            simp only [checkSet, Bool.false_or, decide_eq_false_iff_not]
            omega
          have hs := sendOneChunk_plainOk allOk replied b c rfl
          have ih2 := ih k (b + 1) (by simpa using hk)
          have hidx : b + 1 + k = b + (k + 1) := by omega
          rw [hidx] at ih2
          simp [loopRun, hcs, hs.1, hs.2.1, hs.2.2.2.1, hs.2.2.2.2,
            ih2.1, ih2.2.1, ih2.2.2.1, ih2.2.2.2]

theorem blocksFrom_copy_mem (env : SendEnv) (d : Int) (hp : ∀ i, env.plainOk i = true) :
    ∀ (chunks : List String) (b j : Nat), j < chunks.length →
      (env.copyOk (b + j) = true → env.replyOk (b + j) = true →
        RunEvent.anchorCopied (b + j) ∈ blocksFrom env true d b chunks
        ∧ RunEvent.sentReply (b + j) (chunks.getD j "") ∈ blocksFrom env true d b chunks)
      ∧ ((env.copyOk (b + j) = false ∨ env.replyOk (b + j) = false) →
        RunEvent.sentPlain (b + j) (chunks.getD j "") ∈ blocksFrom env true d b chunks) := by
  intro chunks
  induction chunks with
  | nil =>
      intro b j hj
      simp at hj
  | cons c rest ih =>
      intro b j hj
      cases j with
      | zero =>
          rw [Nat.add_zero]
          constructor
          · intro hc hr
            simp [blocksFrom, chunkBlock, sendOneChunk, hc, hr]
          · intro hor
            rcases hor with hc | hr
            · simp [blocksFrom, chunkBlock, sendOneChunk, hc, hp b]
            · cases hc : env.copyOk b
              · simp [blocksFrom, chunkBlock, sendOneChunk, hc, hp b]
              · simp [blocksFrom, chunkBlock, sendOneChunk, hc, hr, hp b]
      | succ j =>
          have ih2 := ih (b + 1) j (by simpa using hj)
          have hidx : b + 1 + j = b + (j + 1) := by omega
          rw [hidx] at ih2
          have hb : blocksFrom env true d b (c :: rest)
              = chunkBlock env true d b c ++ blocksFrom env true d (b + 1) rest := rfl
          rw [List.getD_cons_succ, hb]
          constructor
          · intro hc hr
            have h2 := ih2.1 hc hr
            exact ⟨List.mem_append_right _ h2.1, List.mem_append_right _ h2.2⟩
          · intro hor
            exact List.mem_append_right _ (ih2.2 hor)

/-- C3: with the transport succeeding, if the stop signal is observed set
at the boundary before chunk i, then exactly the chunks before i have been
sent (none at or after i), the Stopped notice is emitted, no Done notice
appears, and no exception escapes; the flag is cleared at the start of
every run, so the run's behaviour is independent of the flag's prior
value; a stop request always succeeds and acknowledges; and a run started
with no stop request during it (whatever a stray earlier stop left in the
flag) sends every chunk and completes. -/
theorem run_cancellation (prior : Bool) (replied : Bool) (d : Int) (nm : Nat)
    (chunks : List String) (i : Nat) (h : i < chunks.length) :
    sentTexts (runPhase prior allOk (some i) replied d nm chunks).1 = chunks.take i
    ∧ RunEvent.stopped ∈ (runPhase prior allOk (some i) replied d nm chunks).1
    ∧ RunEvent.done ∉ (runPhase prior allOk (some i) replied d nm chunks).1
    ∧ (runPhase prior allOk (some i) replied d nm chunks).2 = false
    ∧ (∀ (p q : Bool) (env : SendEnv) (stopAt : Option Nat),
        runPhase p env stopAt replied d nm chunks = runPhase q env stopAt replied d nm chunks)
    ∧ (∀ f : Bool, stopall f = (true, [RunEvent.stopAck]))
    ∧ (∀ p : Bool, sentTexts (runPhase p allOk none replied d nm chunks).1 = chunks
        ∧ RunEvent.done ∈ (runPhase p allOk none replied d nm chunks).1) := by
  have hstop := loopRun_stop replied d chunks i 0 h
  rw [Nat.zero_add] at hstop
  have hnone := loopRun_none_eq allOk replied d (fun _ => rfl) chunks 0
  have hfacts := blocksFrom_facts allOk replied d (fun _ => rfl) chunks 0
  refine ⟨?_, ?_, ?_, ?_, ?_, ?_, ?_⟩
  · simp [runPhase, clearFlag, hstop.1]
  · simp [runPhase, clearFlag, hstop.2.1]
  · simp [runPhase, clearFlag, hstop.2.2.1]
  · simp [runPhase, clearFlag, hstop.2.2.2]
  · intro p q env stopAt
    rfl
  · intro f
    rfl
  · intro p
    constructor
    · simp [runPhase, clearFlag, hnone, hfacts.1]
    · simp [runPhase, clearFlag, hnone, hfacts.2.2]

/-- Witness for C3: a two-chunk run stopped at boundary 1 sends exactly
the first chunk. -/
theorem run_cancellation_witness :
    (1 < (["a", "b"] : List String).length)
    ∧ sentTexts (runPhase false allOk (some 1) false 900 2 ["a", "b"]).1
        = (["a", "b"] : List String).take 1 :=
  ⟨by decide, (run_cancellation false false 900 2 ["a", "b"] 1 (by decide)).1⟩

/-- Counterexample to C4 as stated: when the plain (non-reply) send of the
first chunk fails, the exception is not caught — the run aborts, the
second chunk is never processed, and no terminal Done or Stopped notice is
emitted. -/
theorem run_plain_abort_cex :
    (runPhase false envPlainFail none false 900 2 ["a", "b"]).2 = true
    ∧ sentTexts (runPhase false envPlainFail none false 900 2 ["a", "b"]).1 = []
    ∧ RunEvent.done ∉ (runPhase false envPlainFail none false 900 2 ["a", "b"]).1
    ∧ RunEvent.stopped ∉ (runPhase false envPlainFail none false 900 2 ["a", "b"]).1 := by
  refine ⟨rfl, rfl, ?_, ?_⟩
  · decide
  · decide

/-- C4 (amended): only the duplicate-then-reply path is protected — a
transport failure there is non-fatal and the controller proceeds to the
next chunk; provided every plain send succeeds, an uncancelled run never
aborts, sends every chunk body, and reaches the Done notice, whatever the
copy and anchored-reply calls do.  (A failing plain send, by contrast,
aborts the run, as the counterexample shows.) -/
theorem run_continue_on_error (env : SendEnv) (replied : Bool) (d : Int) (nm : Nat)
    (chunks : List String) (p : Bool) (hp : ∀ i, env.plainOk i = true) :
    (runPhase p env none replied d nm chunks).2 = false
    ∧ sentTexts (runPhase p env none replied d nm chunks).1 = chunks
    ∧ RunEvent.done ∈ (runPhase p env none replied d nm chunks).1 := by
  have hnone := loopRun_none_eq env replied d hp chunks 0
  have hfacts := blocksFrom_facts env replied d hp chunks 0
  refine ⟨?_, ?_, ?_⟩
  · simp [runPhase, clearFlag, hnone]
  · simp [runPhase, clearFlag, hnone, hfacts.1]
  · simp [runPhase, clearFlag, hnone, hfacts.2.2]

/-- Witness for C4's amended theorem: duplication fails on every chunk,
plain sends succeed, and both chunk bodies are still sent. -/
theorem run_continue_on_error_witness :
    envCopyFail.plainOk 0 = true
    ∧ sentTexts (runPhase false envCopyFail none true 900 2 ["a", "b"]).1 = ["a", "b"] :=
  ⟨rfl, (run_continue_on_error envCopyFail true 900 2 ["a", "b"] false (fun _ => rfl)).2.1⟩

/-- Counterexample to C5 as stated: a completed one-chunk run performs one
pacing delay, not zero — the sleep is executed after the final chunk as
well. -/
theorem run_sleep_after_last_cex :
    countSleeps (runPhase false allOk none false 900 1 ["a"]).1 = 1
    ∧ RunEvent.done ∈ (runPhase false allOk none false 900 1 ["a"]).1
    ∧ countSleeps (runPhase false allOk none false 900 1 ["a"]).1 ≠ 0 := by
  refine ⟨rfl, ?_, ?_⟩
  · decide
  · decide

/-- C5 (amended): the pacing delay is performed after every sent chunk,
the final one included: a completed (uncancelled, unaborted) run performs
exactly one delay per chunk, i.e. `number of chunks` delays rather than
`number of chunks - 1`. -/
theorem run_sleep_count (replied : Bool) (d : Int) (nm : Nat) (chunks : List String)
    (p : Bool) :
    countSleeps (runPhase p allOk none replied d nm chunks).1 = chunks.length
    ∧ RunEvent.done ∈ (runPhase p allOk none replied d nm chunks).1 := by
  have hnone := loopRun_none_eq allOk replied d (fun _ => rfl) chunks 0
  have hfacts := blocksFrom_facts allOk replied d (fun _ => rfl) chunks 0
  constructor
  · simp [runPhase, clearFlag, hnone, hfacts.2.1]
  · simp [runPhase, clearFlag, hnone, hfacts.2.2]

/-- C6: with a stored config whose only_admins is true and a triggering
user the admin lookup does not confirm, tag_all leaves the store exactly
as it was, emits only the denial notice (no header, no chunk message), and
raises nothing; and a failing admin lookup always classifies the user as
non-admin (fail-closed). -/
theorem tag_all_denied (db : DB) (chat user : Int) (cfg : Config)
    (lookup : Except Unit (List Int)) (prior : Bool) (stopAt : Option Nat)
    (replyCtx : Bool) (env : SendEnv)
    (hc : db.chat_config chat = some cfg) (ha : cfg.only_admins = true)
    (hn : is_admin lookup user = false) :
    tag_all db chat user lookup prior stopAt replyCtx env = (db, ([RunEvent.denied], false))
    ∧ ∀ u : Int, is_admin (Except.error ()) u = false := by
  constructor
  · simp [tag_all, get_config, hc, ha, hn]
  · intro u
    rfl

/-- Witness for C6: chat 1 holds the default (admins-only) config, user 5
is not in the (empty) admin list, and the call returns the store unchanged
with only the denial notice. -/
theorem tag_all_denied_witness :
    tag_all db1cfg 1 5 (Except.ok []) false none false allOk
      = (db1cfg, ([RunEvent.denied], false)) :=
  (tag_all_denied db1cfg 1 5 DEFAULTS (Except.ok []) false none false allOk
    (by simp [db1cfg]) rfl rfl).1

/-- Counterexample to C9 as stated: with a reply context, when duplication
fails for the first chunk and the standalone fallback send also fails, the
chunk is not sent at all and the run aborts instead of continuing to the
next chunk. -/
theorem run_copy_fallback_abort_cex :
    (runPhase false envCopyPlainFail none true 900 2 ["a", "b"]).2 = true
    ∧ sentTexts (runPhase false envCopyPlainFail none true 900 2 ["a", "b"]).1 = []
    ∧ RunEvent.done ∉ (runPhase false envCopyPlainFail none true 900 2 ["a", "b"]).1 := by
  refine ⟨rfl, rfl, ?_⟩
  decide

/-- C9 (amended): in a run with copy_message and a reply context, provided
the standalone fallback send succeeds for every chunk, the run never
aborts, every chunk body is sent, the Done notice is reached; a chunk
whose duplication and anchored reply both succeed is preceded by the
duplicated anchor and sent as a reply to it, and a chunk for which
duplication or the anchored reply fails is sent as a standalone message
and the run continues.  (If the fallback send itself fails the run aborts,
as the counterexample shows.) -/
theorem run_copy_message_fallback (env : SendEnv) (d : Int) (nm : Nat)
    (chunks : List String) (p : Bool) (hp : ∀ i, env.plainOk i = true) :
    (runPhase p env none true d nm chunks).2 = false
    ∧ sentTexts (runPhase p env none true d nm chunks).1 = chunks
    ∧ RunEvent.done ∈ (runPhase p env none true d nm chunks).1
    ∧ (∀ j, j < chunks.length → env.copyOk j = true → env.replyOk j = true →
        RunEvent.anchorCopied j ∈ (runPhase p env none true d nm chunks).1
        ∧ RunEvent.sentReply j (chunks.getD j "") ∈ (runPhase p env none true d nm chunks).1)
    ∧ (∀ j, j < chunks.length → (env.copyOk j = false ∨ env.replyOk j = false) →
        RunEvent.sentPlain j (chunks.getD j "") ∈ (runPhase p env none true d nm chunks).1) := by
  have hnone := loopRun_none_eq env true d hp chunks 0
  have hfacts := blocksFrom_facts env true d hp chunks 0
  refine ⟨?_, ?_, ?_, ?_, ?_⟩
  · simp [runPhase, clearFlag, hnone]
  · simp [runPhase, clearFlag, hnone, hfacts.1]
  · simp [runPhase, clearFlag, hnone, hfacts.2.2]
  · intro j hj hc hr
    have hm := blocksFrom_copy_mem env d hp chunks 0 j hj
    rw [Nat.zero_add] at hm
    have h2 := hm.1 hc hr
    have he : (runPhase p env none true d nm chunks).1
        = RunEvent.header nm :: blocksFrom env true d 0 chunks := by
      simp [runPhase, clearFlag, hnone]
    rw [he]
    exact ⟨List.mem_cons_of_mem _ h2.1, List.mem_cons_of_mem _ h2.2⟩
  · intro j hj hor
    have hm := blocksFrom_copy_mem env d hp chunks 0 j hj
    rw [Nat.zero_add] at hm
    have he : (runPhase p env none true d nm chunks).1
        = RunEvent.header nm :: blocksFrom env true d 0 chunks := by
      simp [runPhase, clearFlag, hnone]
    rw [he]
    exact List.mem_cons_of_mem _ (hm.2 hor)

/-- Witness for C9's amended theorem: duplication fails for chunk 0 and
the chunk is sent as a standalone message. -/
theorem run_copy_message_fallback_witness :
    RunEvent.sentPlain 0 ((["a", "b"] : List String).getD 0 "")
      ∈ (runPhase false envCopyFail none true 900 2 ["a", "b"]).1 :=
  (run_copy_message_fallback envCopyFail 900 2 ["a", "b"] false (fun _ => rfl)).2.2.2.2 0
    (by decide) (Or.inl rfl)
